import Mathlib

/-!
Shallow embedding of `src/xlsx_to_csv.py` and verification of its
specification claims.

The Python module converts a spreadsheet package (xlsx) into CSV files.
Its core is pure: an address codec (`column_index_to_letter`,
`excel_cell_to_coords`), a shared-string loader (`parse_shared_strings`),
a worksheet decoder building a sparse grid with data-derived bounds
(`parse_worksheet_xml`), and a dense serializer that drops blank rows
(`cells_to_csv`).  Machine integers in the source are Python unbounded
ints, embedded as `Int` (or `Nat` where the source value is provably
non-negative).  Fallible code is embedded with `Except`/`Option`.
-/

namespace XlsxToCsv

/-- ASCII uppercase test, embedding the regex character class [A-Z]
used in `excel_cell_to_coords`. -/
def isUp (c : Char) : Bool := 65 ≤ c.toNat && c.toNat ≤ 90

/-- ASCII digit test, embedding the regex character class \d as used on
the ASCII addresses the program handles. -/
def isDig (c : Char) : Bool := 48 ≤ c.toNat && c.toNat ≤ 57

/-- Whitespace test of the Python method `str.strip` (ASCII fragment:
space, tab, newline, carriage return, vertical tab, form feed). -/
def isPySpace (c : Char) : Bool :=
  c == ' ' || c == '\t' || c == '\n' || c == '\r' || c == '\x0b' || c == '\x0c'

/-- Embedding of the Python expression `s.strip()`: drop leading and
trailing whitespace. -/
def pyStrip (s : String) : String :=
  String.mk (((s.data.dropWhile isPySpace).reverse.dropWhile isPySpace).reverse)

/-- Bijective base-26 digit list of a positive column number, embedding the
loop of `column_index_to_letter` (source lines 10-14):
`while col_num > 0: col_num -= 1; result = chr(col_num % 26 + ord('A')) + result; col_num //= 26`. -/
def colLetters : Nat → List Char
  | 0 => []
  | n + 1 => colLetters (n / 26) ++ [Char.ofNat (n % 26 + 65)]
decreasing_by exact Nat.lt_succ_of_le (Nat.div_le_self n 26)

/-- Embedding of `column_index_to_letter` (source lines 8-15). -/
def column_index_to_letter (col_num : Nat) : String :=
  String.mk (colLetters col_num)

/-- Embedding of the column-letter accumulation loop inside
`excel_cell_to_coords` (source lines 27-29):
`col_num = col_num * 26 + (ord(char) - ord('A') + 1)` over the letters.
The spec names this operation `letters_to_number`. -/
def letters_to_number (cs : List Char) : Nat :=
  cs.foldl (fun acc c => acc * 26 + (c.toNat - 64)) 0

/-- Value of a non-empty ASCII digit list, embedding the Python builtin
`int` applied to a digit group. -/
def digitsVal (ds : List Char) : Nat :=
  ds.foldl (fun acc c => acc * 10 + (c.toNat - 48)) 0

/-- Decimal digit list of a natural number, embedding the Python builtin
`str` on a non-negative int. -/
def natDigits (n : Nat) : List Char :=
  if h : n < 10 then [Char.ofNat (n + 48)]
  else natDigits (n / 10) ++ [Char.ofNat (n % 10 + 48)]
decreasing_by exact Nat.div_lt_self (by omega) (by omega)

/-- Embedding of the Python expression `str(i)` on an int. -/
def intStr (i : Int) : String :=
  if i < 0 then String.mk ('-' :: natDigits (-i).toNat)
  else String.mk (natDigits i.toNat)

/-- Embedding of the Python builtin `int(s)` on a string (ASCII fragment:
optional surrounding whitespace, optional sign, non-empty digit run), as
used on cell values in `parse_worksheet_xml`; returns `none` where the
builtin raises `ValueError`. -/
def pyInt (s : String) : Option Int :=
  let core := ((s.data.dropWhile isPySpace).reverse.dropWhile isPySpace).reverse
  match core with
  | '-' :: ds => if ds ≠ [] ∧ ds.all isDig then some (-(digitsVal ds : Int)) else none
  | '+' :: ds => if ds ≠ [] ∧ ds.all isDig then some ((digitsVal ds : Int)) else none
  | ds => if ds ≠ [] ∧ ds.all isDig then some ((digitsVal ds : Int)) else none

/-- Embedding of `excel_cell_to_coords` (source lines 17-31).  The source
matches `re.match` with group pattern letters-then-digits against the cell
reference; `re.match` anchors at the start only, so the match succeeds
exactly when a non-empty run of uppercase letters is followed immediately
by at least one digit, and trailing junk is ignored.  Row `0` in the
reference yields row index `-1`, hence the row index is an `Int`; the
column number is at least 1 whenever the letter run is non-empty, so the
column index is a `Nat`. -/
def excel_cell_to_coords (cell_ref : String) : Option (Int × Nat) :=
  let letters := cell_ref.data.takeWhile isUp
  let rest := cell_ref.data.dropWhile isUp
  let digits := rest.takeWhile isDig
  if letters = [] ∨ digits = [] then none
  else some (((digitsVal digits : Int) - 1, letters_to_number letters - 1))

/-- Modelled from the spec: the full address encoder
`encode(row, col) -> ref`, the bijective base-26 column letters followed
by the 1-based row number.  Only the column half exists in the source
(as `column_index_to_letter`, which the conversion flow never calls); the
spec retains the full encoder in the codec abstraction for symmetry. -/
def encodeAddr (row : Int) (col : Nat) : String :=
  column_index_to_letter (col + 1) ++ intStr (row + 1)

/-- Pattern predicate taken from the words of the spec: the reference has
a non-empty run of uppercase letters followed immediately by at least one
digit (letters-then-digits).  Stated independently of the decoder so that
the decoder can be compared against it. -/
def matchesLettersThenDigits (s : String) : Prop :=
  ∃ l d r : List Char,
    s.data = l ++ d ++ r ∧ l ≠ [] ∧ d ≠ [] ∧
    (∀ c ∈ l, isUp c = true) ∧ (∀ c ∈ d, isDig c = true)

/-- One worksheet cell element, as the decoder sees it through the XML
tree: attribute `r` (address), attribute `t` (type), and the optional
value child element `v` whose text node is itself optional (ElementTree
reports the text of an empty element as `None`). -/
structure Cell where
  r : Option String
  t : Option String
  v : Option (Option String)
deriving DecidableEq, Repr

/-- Decoder state of `parse_worksheet_xml`: the accumulator dictionary
`cells` keyed by (row index, column index), plus the running bounds.
The dictionary is embedded as an association list where a new binding is
put in front and lookup takes the first hit, so later assignments win as
with a Python dict.  `max_row` is an `Int` because a row index can be
`-1` (address row digits `0`); a column index is always a `Nat`. -/
structure WsState where
  cells : List ((Int × Nat) × String)
  max_row : Int
  max_col : Nat
deriving DecidableEq, Repr

/-- Resolution of one cell value, embedding source lines 70-84.  The
result is the local variable `cell_value` just before the blank test;
`Except.error` marks an uncaught Python exception: `int(None)` raises
`TypeError`, which the `except (ValueError, IndexError)` clause does not
catch, so it escapes `parse_worksheet_xml`.  A parse failure of `int` on
a string (`ValueError`) is caught and falls back to the raw text; a
successfully parsed index is used only under the guard
`string_index < len(shared_strings)`, with Python list semantics: a
non-negative index reads left to right, a negative index within range
reads from the end, and a negative index out of range raises
`IndexError`, which is caught and falls back to the raw text.  A parsed
index at or beyond the table length fails the guard silently and leaves
`cell_value` as the initial empty string. -/
def resolveValue (shared_strings : List String) (t : Option String)
    (v : Option (Option String)) : Except Unit String :=
  match v with
  | none => Except.ok ""
  | some txt =>
    if t = some "s" then
      match txt with
      | none => Except.error ()
      | some s =>
        match pyInt s with
        | none => Except.ok s
        | some i =>
          if i < (shared_strings.length : Int) then
            if 0 ≤ i then
              Except.ok (shared_strings.getD i.toNat "")
            else if 0 ≤ (shared_strings.length : Int) + i then
              Except.ok (shared_strings.getD ((shared_strings.length : Int) + i).toNat "")
            else Except.ok s
          else Except.ok ""
    else Except.ok (txt.getD "")

/-- Processing of one cell element inside the loop of
`parse_worksheet_xml` (source lines 61-90): skip a missing or empty
address attribute, skip an undecodable address, resolve the value, and
store it with updated bounds only when it is non-blank after trimming. -/
def processCell (shared_strings : List String) (st : WsState) (c : Cell) :
    Except Unit WsState :=
  match c.r with
  | none => Except.ok st
  | some cell_ref =>
    if cell_ref = "" then Except.ok st
    else
      match excel_cell_to_coords cell_ref with
      | none => Except.ok st
      | some (row_idx, col_idx) => do
        let cell_value ← resolveValue shared_strings c.t c.v
        if pyStrip cell_value ≠ "" then
          Except.ok ⟨((row_idx, col_idx), cell_value) :: st.cells,
                     max st.max_row row_idx, max st.max_col col_idx⟩
        else Except.ok st

/-- Embedding of `parse_worksheet_xml` (source lines 50-92).  The input
is the already-parsed XML tree, given as the rows of cell elements found
by the two nested `findall` loops; the shared-string table is the second
argument.  `Except.error` marks an uncaught exception escaping the
function. -/
def parse_worksheet_xml (rows : List (List Cell)) (shared_strings : List String) :
    Except Unit WsState :=
  rows.flatten.foldlM (processCell shared_strings) ⟨[], 0, 0⟩

/-- Embedding of `parse_shared_strings` (source lines 33-48).  The input
is `none` when the package has no part named `xl/sharedStrings.xml`, in
which case `zip_file.open` raises `KeyError`, the handler prints a
warning and the accumulated empty list is returned; the returned `Bool`
records whether that warning was printed.  Otherwise the input holds one
entry per string item: `none` when the item has no text child, else the
optional text of its first text child. -/
def parse_shared_strings (part : Option (List (Option (Option String)))) :
    List String × Bool :=
  match part with
  | none => ([], true)
  | some items => (items.map (fun tn => (tn.getD none).getD ""), false)

/-- Embedding of the Python expression `cells.get((row_idx, col_idx), '')`
on the association-list dictionary. -/
def dictGet (cells : List ((Int × Nat) × String)) (key : Int × Nat) : String :=
  match cells.find? (fun e => e.1 == key) with
  | some e => e.2
  | none => ""

/-- One output row of `cells_to_csv` (source lines 101-104): the values
at columns `0..max_col` of row `row_idx`, defaulting to the empty
string. -/
def buildRow (cells : List ((Int × Nat) × String)) (max_col : Nat)
    (row_idx : Int) : List String :=
  (List.range (max_col + 1)).map (fun col_idx => dictGet cells (row_idx, col_idx))

/-- The guard of source line 107: `any(cell.strip() for cell in row_data)`,
true when some cell of the row is non-empty after trimming. -/
def rowKeep (row : List String) : Bool :=
  row.any (fun cell => !(pyStrip cell == ""))

/-- Embedding of `cells_to_csv` (source lines 94-108), returning the
sequence of rows given to `writer.writerow` in emission order; the CSV
quoting done by the `csv` module on each row is out of scope.  The row
loop runs `row_idx` over `range(max_row + 1)`. -/
def cells_to_csv (cells : List ((Int × Nat) × String)) (max_row : Int)
    (max_col : Nat) : List (List String) :=
  (List.range (max_row + 1).toNat).foldl
    (fun written (row_idx : Nat) =>
      let row_data := buildRow cells max_col (row_idx : Int)
      if rowKeep row_data then written ++ [row_data] else written)
    []

/-- Per-file worksheet loop of `convert_xlsx_to_csv` (source lines
133-157), with the processing of one worksheet part (read, decode,
serialize, write) abstracted as its `Except` outcome.  The loop body has
no exception handler, so the first raising worksheet aborts the loop and
the exception escapes the function; the first component collects the
outputs of the worksheets that were processed before that, in order. -/
def runWorksheets {α : Type} : List (Except String α) → List α × Option String
  | [] => ([], none)
  | Except.error e :: _ => ([], some e)
  | Except.ok a :: rest =>
    let (done, err) := runWorksheets rest
    (a :: done, err)

/-- Per-file loop of `main` (source lines 170-186): each file conversion
runs under `try`, an exception increments the failure count and the loop
continues; the result is (successful count, failed count). -/
def mainLoop (files : List (Except String Unit)) : Nat × Nat :=
  files.foldl
    (fun counts outcome =>
      match outcome with
      | Except.ok _ => (counts.1 + 1, counts.2)
      | Except.error _ => (counts.1, counts.2 + 1))
    (0, 0)

/-! ### Helper lemmas about the codec -/

theorem letters_to_number_concat (xs : List Char) (c : Char) :
    letters_to_number (xs ++ [c]) = letters_to_number xs * 26 + (c.toNat - 64) := by
  simp [letters_to_number, List.foldl_append]

theorem digitsVal_concat (ds : List Char) (c : Char) :
    digitsVal (ds ++ [c]) = digitsVal ds * 10 + (c.toNat - 48) := by
  simp [digitsVal, List.foldl_append]

theorem toNat_ofNat_upper : ∀ d : Nat, d < 26 → (Char.ofNat (d + 65)).toNat = d + 65 := by
  decide

theorem toNat_ofNat_digit : ∀ d : Nat, d < 10 → (Char.ofNat (d + 48)).toNat = d + 48 := by
  decide

theorem isUp_ofNat_upper : ∀ d : Nat, d < 26 → isUp (Char.ofNat (d + 65)) = true := by
  decide

theorem isDig_ofNat_digit : ∀ d : Nat, d < 10 → isDig (Char.ofNat (d + 48)) = true := by
  decide

/-- The column-letter loop is a left inverse of the letter-accumulation
loop: converting a column number to letters and back is the identity. -/
theorem letters_to_number_colLetters (n : Nat) :
    letters_to_number (colLetters n) = n := by
  induction n using Nat.strong_induction_on with
  | _ n ih =>
    match n with
    | 0 => simp [colLetters, letters_to_number]
    | m + 1 =>
      rw [colLetters, letters_to_number_concat,
          ih (m / 26) (Nat.lt_succ_of_le (Nat.div_le_self m 26)),
          toNat_ofNat_upper (m % 26) (Nat.mod_lt m (by omega))]
      omega

theorem colLetters_all_isUp (n : Nat) : ∀ c ∈ colLetters n, isUp c = true := by
  induction n using Nat.strong_induction_on with
  | _ n ih =>
    match n with
    | 0 => simp [colLetters]
    | m + 1 =>
      rw [colLetters]
      intro c hc
      rcases List.mem_append.mp hc with h | h
      · exact ih (m / 26) (Nat.lt_succ_of_le (Nat.div_le_self m 26)) c h
      · rcases List.mem_singleton.mp h with rfl
        exact isUp_ofNat_upper (m % 26) (Nat.mod_lt m (by omega))

theorem colLetters_mul_add (m d : Nat) (h1 : 1 ≤ d) (h2 : d ≤ 26) :
    colLetters (m * 26 + d) = colLetters m ++ [Char.ofNat (d - 1 + 65)] := by
  have hd : m * 26 + d = (m * 26 + (d - 1)) + 1 := by omega
  have hdiv : (m * 26 + (d - 1)) / 26 = m := by omega
  have hmod : (m * 26 + (d - 1)) % 26 = d - 1 := by omega
  rw [hd, colLetters, hdiv, hmod]

/-- The letter-accumulation loop is a left inverse of the column-letter
loop on uppercase letter lists. -/
theorem colLetters_letters_to_number (L : List Char)
    (hup : ∀ c ∈ L, isUp c = true) : colLetters (letters_to_number L) = L := by
  induction L using List.reverseRecOn with
  | nil => simp [letters_to_number, colLetters]
  | append_singleton xs c ih =>
    have hc : isUp c = true := hup c (List.mem_append_right xs (List.mem_singleton_self c))
    have hc' : 65 ≤ c.toNat ∧ c.toNat ≤ 90 := by
      simpa [isUp, Bool.and_eq_true, decide_eq_true_eq] using hc
    rw [letters_to_number_concat,
        colLetters_mul_add _ _ (by omega) (by omega),
        ih (fun x hx => hup x (List.mem_append_left _ hx))]
    have : c.toNat - 64 - 1 + 65 = c.toNat := by omega
    rw [this, Char.ofNat_toNat]

/-- Reading back the decimal digit list of a natural number yields the
number: `int` inverts `str` on non-negative values. -/
theorem digitsVal_natDigits (n : Nat) : digitsVal (natDigits n) = n := by
  induction n using Nat.strong_induction_on with
  | _ n ih =>
    by_cases h : n < 10
    · rw [natDigits, dif_pos h]
      show digitsVal ([] ++ [Char.ofNat (n + 48)]) = n
      rw [digitsVal_concat, toNat_ofNat_digit n h]
      simp [digitsVal]
    · rw [natDigits, dif_neg h, digitsVal_concat,
          ih (n / 10) (Nat.div_lt_self (by omega) (by omega)),
          toNat_ofNat_digit (n % 10) (Nat.mod_lt n (by omega))]
      omega

theorem natDigits_ne_nil (n : Nat) : natDigits n ≠ [] := by
  by_cases h : n < 10
  · rw [natDigits, dif_pos h]; simp
  · rw [natDigits, dif_neg h]; simp

theorem natDigits_all_isDig (n : Nat) : ∀ c ∈ natDigits n, isDig c = true := by
  induction n using Nat.strong_induction_on with
  | _ n ih =>
    by_cases h : n < 10
    · rw [natDigits, dif_pos h]
      intro c hc
      rcases List.mem_singleton.mp hc with rfl
      exact isDig_ofNat_digit n h
    · rw [natDigits, dif_neg h]
      intro c hc
      rcases List.mem_append.mp hc with h' | h'
      · exact ih (n / 10) (Nat.div_lt_self (by omega) (by omega)) c h'
      · rcases List.mem_singleton.mp h' with rfl
        exact isDig_ofNat_digit (n % 10) (Nat.mod_lt n (by omega))

theorem isDig_not_isUp {c : Char} (h : isDig c = true) : isUp c = false := by
  have h' : 48 ≤ c.toNat ∧ c.toNat ≤ 57 := by
    simpa [isDig, Bool.and_eq_true, decide_eq_true_eq] using h
  simp only [isUp, Bool.and_eq_false_iff, decide_eq_false_iff_not]
  left
  omega

theorem takeWhile_all_append {p : Char → Bool} :
    ∀ {l1 l2 : List Char}, (∀ c ∈ l1, p c = true) →
      (l1 ++ l2).takeWhile p = l1 ++ l2.takeWhile p := by
  intro l1
  induction l1 with
  | nil => intro l2 _; simp
  | cons x xs ih =>
    intro l2 h
    have hx : p x = true := h x (List.mem_cons_self x xs)
    simp only [List.cons_append, List.takeWhile_cons, hx]
    rw [ih (fun c hc => h c (List.mem_cons_of_mem x hc))]
    simp

theorem dropWhile_all_append {p : Char → Bool} :
    ∀ {l1 l2 : List Char}, (∀ c ∈ l1, p c = true) →
      (l1 ++ l2).dropWhile p = l2.dropWhile p := by
  intro l1
  induction l1 with
  | nil => intro l2 _; simp
  | cons x xs ih =>
    intro l2 h
    have hx : p x = true := h x (List.mem_cons_self x xs)
    simp only [List.cons_append, List.dropWhile_cons, hx]
    exact ih (fun c hc => h c (List.mem_cons_of_mem x hc))

theorem takeWhile_all_mem {p : Char → Bool} :
    ∀ {l : List Char}, ∀ c ∈ l.takeWhile p, p c = true := by
  intro l
  induction l with
  | nil => simp
  | cons x xs ih =>
    intro c hc
    by_cases hx : p x = true
    · rw [List.takeWhile_cons, if_pos hx] at hc
      rcases List.mem_cons.mp hc with rfl | h
      · exact hx
      · exact ih c h
    · rw [List.takeWhile_cons, if_neg hx] at hc
      exact absurd hc (List.not_mem_nil c)

theorem takeWhile_all_self {p : Char → Bool} {l : List Char}
    (h : ∀ c ∈ l, p c = true) : l.takeWhile p = l := by
  have h' := @takeWhile_all_append p l [] h
  simpa using h'

theorem letters_to_number_pos {L : List Char} (hne : L ≠ [])
    (hup : ∀ c ∈ L, isUp c = true) : 1 ≤ letters_to_number L := by
  induction L using List.reverseRecOn with
  | nil => exact absurd rfl hne
  | append_singleton xs c _ =>
    have hc : isUp c = true := hup c (List.mem_append_right xs (List.mem_singleton_self c))
    have hc' : 65 ≤ c.toNat ∧ c.toNat ≤ 90 := by
      simpa [isUp, Bool.and_eq_true, decide_eq_true_eq] using hc
    rw [letters_to_number_concat]
    omega

/-- Decoding an address made of an uppercase letter run followed by the
canonical decimal digits of `n` yields row index `n - 1` and the
bijective base-26 value of the letters minus 1. -/
theorem excel_cell_to_coords_canonical (L : List Char) (n : Nat) (hne : L ≠ [])
    (hup : ∀ c ∈ L, isUp c = true) :
    excel_cell_to_coords (String.mk (L ++ natDigits n))
      = some ((n : Int) - 1, letters_to_number L - 1) := by
  have hD := natDigits_all_isDig n
  have hDne := natDigits_ne_nil n
  have htake : (natDigits n).takeWhile isUp = [] := by
    cases hd : natDigits n with
    | nil => rfl
    | cons d ds =>
      have : isDig d = true := hD d (hd ▸ List.mem_cons_self d ds)
      rw [List.takeWhile_cons, if_neg (by simp [isDig_not_isUp this])]
  have hdrop : (natDigits n).dropWhile isUp = natDigits n := by
    cases hd : natDigits n with
    | nil => rfl
    | cons d ds =>
      have : isDig d = true := hD d (hd ▸ List.mem_cons_self d ds)
      rw [List.dropWhile_cons, if_neg (by simp [isDig_not_isUp this])]
  show (let letters := (L ++ natDigits n).takeWhile isUp
        let rest := (L ++ natDigits n).dropWhile isUp
        let digits := rest.takeWhile isDig
        if letters = [] ∨ digits = [] then none
        else some (((digitsVal digits : Int) - 1, letters_to_number letters - 1)))
      = some ((n : Int) - 1, letters_to_number L - 1)
  rw [takeWhile_all_append hup, dropWhile_all_append hup, htake, hdrop]
  simp only [List.append_nil, takeWhile_all_self hD]
  rw [if_neg (by simp [hne, hDne]), digitsVal_natDigits]

/-- Encoding row index `n - 1` and the column index of an uppercase
letter run reproduces the canonical address string. -/
theorem encodeAddr_canonical (L : List Char) (n : Nat) (hne : L ≠ [])
    (hup : ∀ c ∈ L, isUp c = true) :
    encodeAddr ((n : Int) - 1) (letters_to_number L - 1)
      = String.mk (L ++ natDigits n) := by
  unfold encodeAddr
  rw [Nat.sub_add_cancel (letters_to_number_pos hne hup)]
  have hrow : (n : Int) - 1 + 1 = (n : Int) := by omega
  rw [hrow]
  have hint : intStr (n : Int) = String.mk (natDigits n) := by
    unfold intStr
    rw [if_neg (by omega), Int.toNat_natCast]
  rw [hint]
  unfold column_index_to_letter
  rw [colLetters_letters_to_number L hup]
  rfl

/-! ### Helper lemmas about the worksheet decoder -/

/-- Largest element of a list of row indices, taking 0 for the empty
list (the initial value of `max_row` in the source). -/
def intSup0 (l : List Int) : Int := l.foldr max 0

/-- Largest element of a list of column indices, taking 0 for the empty
list (the initial value of `max_col` in the source). -/
def natSup0 (l : List Nat) : Nat := l.foldr max 0

/-- Case analysis for one step of the decoder loop: a successful step
either leaves the state unchanged, or stores one non-blank resolved
value in front of the dictionary and pushes the bounds up with `max`. -/
theorem processCell_ok_elim {shared : List String} {st : WsState} {c : Cell}
    {st' : WsState} (h : processCell shared st c = Except.ok st') :
    st' = st ∨
    ∃ ref ri ci v, c.r = some ref ∧ excel_cell_to_coords ref = some (ri, ci) ∧
      resolveValue shared c.t c.v = Except.ok v ∧ pyStrip v ≠ "" ∧
      st' = ⟨((ri, ci), v) :: st.cells, max st.max_row ri, max st.max_col ci⟩ := by
  unfold processCell at h
  cases hr : c.r with
  | none => simp only [hr] at h; exact Or.inl (Except.ok.inj h).symm
  | some ref =>
    simp only [hr] at h
    by_cases he : ref = ""
    · rw [if_pos he] at h; exact Or.inl (Except.ok.inj h).symm
    · rw [if_neg he] at h
      cases hco : excel_cell_to_coords ref with
      | none => simp only [hco] at h; exact Or.inl (Except.ok.inj h).symm
      | some p =>
        simp only [hco] at h
        cases hv : resolveValue shared c.t c.v with
        | error e =>
          simp only [hv, Bind.bind, Except.bind] at h
          simp at h
        | ok v =>
          simp only [hv, Bind.bind, Except.bind] at h
          by_cases hb : pyStrip v = ""
          · simp only [hb, ne_eq, not_true_eq_false, if_false] at h
            exact Or.inl (Except.ok.inj h).symm
          · simp only [hb, ne_eq, not_false_eq_true, if_true] at h
            exact Or.inr ⟨ref, p.1, p.2, v, rfl, by simpa using hco, rfl,
              hb, (Except.ok.inj h).symm⟩

/-- An invariant preserved by every successful decoder step is carried
through the whole fold of `parse_worksheet_xml`. -/
theorem foldlM_processCell_inv {shared : List String} (P : WsState → Prop)
    (hstep : ∀ st c st', processCell shared st c = Except.ok st' → P st → P st') :
    ∀ (cs : List Cell) (st st' : WsState),
      cs.foldlM (processCell shared) st = Except.ok st' → P st → P st' := by
  intro cs
  induction cs with
  | nil =>
    intro st st' h hP
    simp only [List.foldlM_nil] at h
    exact (Except.ok.inj h) ▸ hP
  | cons c cs ih =>
    intro st st' h hP
    simp only [List.foldlM_cons] at h
    cases h1 : processCell shared st c with
    | error e =>
      rw [h1] at h
      exact absurd h (by simp [Bind.bind, Except.bind])
    | ok st1 =>
      rw [h1] at h
      simp only [Bind.bind, Except.bind] at h
      exact ih st1 st' h (hstep st c st1 h1 hP)

/-! ### Helper lemmas about the serializer and the orchestrator -/

theorem foldl_emit_eq_filter_map {β γ : Type} (f : β → γ) (p : γ → Bool) :
    ∀ (l : List β) (acc : List γ),
      l.foldl (fun written x => if p (f x) then written ++ [f x] else written) acc
        = acc ++ (l.map f).filter p := by
  intro l
  induction l with
  | nil => intro acc; simp
  | cons x xs ih =>
    intro acc
    by_cases hp : p (f x) = true
    · simp only [List.foldl_cons, hp, if_true, ih, List.map_cons, List.filter_cons, hp]
      simp
    · simp only [List.foldl_cons, hp, if_false, ih, List.map_cons, List.filter_cons]
      simp [hp]

theorem runWorksheets_all_ok {α : Type} :
    ∀ (xs : List (Except String α)), (∀ x ∈ xs, ∃ a, x = Except.ok a) →
      ∀ (ys : List (Except String α)) (e : String),
        runWorksheets (xs ++ Except.error e :: ys)
          = (xs.filterMap Except.toOption, some e) := by
  intro xs
  induction xs with
  | nil => intro _ ys e; rfl
  | cons x xs ih =>
    intro h ys e
    rcases h x (List.mem_cons_self x xs) with ⟨a, rfl⟩
    have ih' := ih (fun y hy => h y (List.mem_cons_of_mem _ hy)) ys e
    simp only [List.cons_append, runWorksheets]
    rw [show xs.append (Except.error e :: ys) = xs ++ Except.error e :: ys from rfl, ih']
    simp [List.filterMap_cons, Except.toOption]

theorem mainLoop_counts_aux :
    ∀ (files : List (Except String Unit)) (a b : Nat),
      (files.foldl
        (fun counts outcome =>
          match outcome with
          | Except.ok _ => (counts.1 + 1, counts.2)
          | Except.error _ => (counts.1, counts.2 + 1))
        (a, b)).1 +
      (files.foldl
        (fun counts outcome =>
          match outcome with
          | Except.ok _ => (counts.1 + 1, counts.2)
          | Except.error _ => (counts.1, counts.2 + 1))
        (a, b)).2 = a + b + files.length := by
  intro files
  induction files with
  | nil => intro a b; simp
  | cons f fs ih =>
    intro a b
    cases f with
    | ok u => simp only [List.foldl_cons, List.length_cons, ih (a + 1) b]; omega
    | error e => simp only [List.foldl_cons, List.length_cons, ih a (b + 1)]; omega

/-! ### Claim theorems -/

/-- Claim C6: address decoding fails exactly when the reference does not
match the letters-then-digits pattern (a non-empty uppercase letter run
followed immediately by at least one digit, the anchored-at-start
semantics of the `re.match` call in the source); in particular the
references 1A, A, 12 and the empty string all fail, and every reference
matching the pattern decodes successfully. -/
theorem claim_C6 :
    (∀ s : String, (excel_cell_to_coords s).isSome = true ↔ matchesLettersThenDigits s) ∧
    excel_cell_to_coords "1A" = none ∧ excel_cell_to_coords "A" = none ∧
    excel_cell_to_coords "12" = none ∧ excel_cell_to_coords "" = none := by
  refine ⟨fun s => ?_, by decide, by decide, by decide, by decide⟩
  constructor
  · intro h
    simp only [excel_cell_to_coords] at h
    by_cases hg : s.data.takeWhile isUp = [] ∨ (s.data.dropWhile isUp).takeWhile isDig = []
    · rw [if_pos hg] at h
      exact absurd h (by simp)
    · push_neg at hg
      refine ⟨s.data.takeWhile isUp, (s.data.dropWhile isUp).takeWhile isDig,
        (s.data.dropWhile isUp).dropWhile isDig, ?_, hg.1, hg.2,
        fun c hc => takeWhile_all_mem c hc, fun c hc => takeWhile_all_mem c hc⟩
      rw [List.append_assoc, List.takeWhile_append_dropWhile,
        List.takeWhile_append_dropWhile]
  · rintro ⟨l, d, r, hsplit, hl, hd, hlu, hdd⟩
    cases d with
    | nil => exact absurd rfl hd
    | cons c ds =>
      have hcd : isDig c = true := hdd c (List.mem_cons_self c ds)
      have hcu : isUp c = false := isDig_not_isUp hcd
      have htake : s.data.takeWhile isUp = l := by
        rw [hsplit, List.append_assoc, takeWhile_all_append hlu,
          List.cons_append, List.takeWhile_cons, if_neg (by simp [hcu])]
        simp
      have hdrop : s.data.dropWhile isUp = (c :: ds) ++ r := by
        rw [hsplit, List.append_assoc, dropWhile_all_append hlu,
          List.cons_append, List.dropWhile_cons, if_neg (by simp [hcu])]
      have hdig : (s.data.dropWhile isUp).takeWhile isDig
          = (c :: ds) ++ r.takeWhile isDig := by
        rw [hdrop, takeWhile_all_append hdd]
      simp only [excel_cell_to_coords, htake, hdig]
      rw [if_neg (by simp [hl])]
      rfl

/-- Claim C6 witness: the reference B2 decodes successfully, hence it
matches the letters-then-digits pattern. -/
theorem claim_C6_witness : matchesLettersThenDigits "B2" :=
  (claim_C6.1 "B2").mp (by decide)

/-- Claim C7: the serializer builds one candidate row for every row index
in 0..max_row, each row listing the grid values at column indices
0..max_col with missing entries defaulted to the empty string, and emits
exactly the candidate rows containing at least one cell that is
non-empty after trimming; in particular a grid with non-blank cells only
at rows 0 and 2 produces exactly two output rows, the fully blank middle
row being dropped. -/
theorem claim_C7 :
    (∀ (cells : List ((Int × Nat) × String)) (max_row : Int) (max_col : Nat),
        cells_to_csv cells max_row max_col
          = (((List.range (max_row + 1).toNat).map
                (fun (row_idx : Nat) => buildRow cells max_col (row_idx : Int))).filter rowKeep)) ∧
    (∀ cells max_row max_col row, row ∈ cells_to_csv cells max_row max_col →
        rowKeep row = true) ∧
    cells_to_csv [((0, 0), "a"), ((2, 0), "b")] 2 0 = [["a"], ["b"]] := by
  have hmain : ∀ (cells : List ((Int × Nat) × String)) (max_row : Int) (max_col : Nat),
      cells_to_csv cells max_row max_col
        = (((List.range (max_row + 1).toNat).map
              (fun (row_idx : Nat) => buildRow cells max_col (row_idx : Int))).filter rowKeep) := by
    intro cells max_row max_col
    unfold cells_to_csv
    have h := foldl_emit_eq_filter_map
      (fun row_idx : Nat => buildRow cells max_col (row_idx : Int)) rowKeep
      (List.range (max_row + 1).toNat) []
    rw [List.nil_append] at h
    exact h
  refine ⟨hmain, ?_, by decide⟩
  intro cells max_row max_col row hrow
  rw [hmain] at hrow
  exact (List.mem_filter.mp hrow).2

/-- Claim C7 witness: every emitted row of the two-populated-row grid
contains a non-blank cell. -/
theorem claim_C7_witness : rowKeep ["a"] = true :=
  claim_C7.2.1 [((0, 0), "a"), ((2, 0), "b")] 2 0 ["a"] (by decide)

/-- Claim C8: for every column number n in 1..1000 (indeed for every n),
converting n to bijective base-26 letters with `column_index_to_letter`
and accumulating the letters back with the loop of
`excel_cell_to_coords` yields n again. -/
theorem claim_C8 (n : Nat) (_h1 : 1 ≤ n) (_h2 : n ≤ 1000) :
    letters_to_number (column_index_to_letter n).data = n := by
  unfold column_index_to_letter
  exact letters_to_number_colLetters n

/-- Claim C8 witness at n = 28. -/
theorem claim_C8_witness : letters_to_number (column_index_to_letter 28).data = 28 :=
  claim_C8 28 (by decide) (by decide)

/-- Claim C9: when the shared-string part is absent, the loader returns
the empty table together with the warning flag and no failure, and a
cell that is not typed as a shared-string reference resolves to the same
value against the empty table as against any other table. -/
theorem claim_C9 :
    parse_shared_strings none = ([], true) ∧
    (∀ (tbl1 tbl2 : List String) (t : Option String) (v : Option (Option String)),
        t ≠ some "s" → resolveValue tbl1 t v = resolveValue tbl2 t v) := by
  refine ⟨rfl, ?_⟩
  intro tbl1 tbl2 t v ht
  cases v with
  | none => rfl
  | some txt => simp [resolveValue, ht]

/-- Claim C9 witness: a cell with no type attribute and inline value 7
resolves identically against a one-entry table and the empty table. -/
theorem claim_C9_witness :
    resolveValue ["x"] none (some (some "7")) = resolveValue [] none (some (some "7")) :=
  claim_C9.2 ["x"] [] none (some (some "7")) (by simp)

/-- Claim C10: a shared-string-typed cell whose raw value parses to a
negative index that is within the table length (Python semantics)
resolves to the entry that far from the end of the table, not to any
fallback. -/
theorem claim_C10 (shared : List String) (s : String) (i : Int)
    (hparse : pyInt s = some i) (hneg : i < 0)
    (hin : 0 ≤ (shared.length : Int) + i) :
    resolveValue shared (some "s") (some (some s))
      = Except.ok (shared.getD ((shared.length : Int) + i).toNat "") := by
  have h1 : i < (shared.length : Int) := by omega
  have h2 : ¬ 0 ≤ i := by omega
  simp [resolveValue, hparse, h1, h2, hin]

/-- Claim C10 witness: value -1 against the table a, b, c resolves to
the last entry c. -/
theorem claim_C10_witness :
    resolveValue ["a", "b", "c"] (some "s") (some (some "-1")) = Except.ok "c" := by
  have h := claim_C10 ["a", "b", "c"] "-1" (-1) (by decide) (by decide) (by decide)
  simpa using h

/-- Claim C1 counterexample: a worksheet whose only cell has address A0
retains that cell at row index -1, yet the decoder returns max_row = 0,
so max_row does not equal the largest row index among retained cells. -/
theorem claim_C1_counterexample :
    parse_worksheet_xml [[⟨some "A0", none, some (some "x")⟩]] []
      = Except.ok ⟨[(((-1 : Int), (0 : Nat)), "x")], 0, 0⟩ ∧
    ((-1 : Int) ≠ 0) := ⟨rfl, by decide⟩

/-- Claim C1 (amended): the bounds returned by the worksheet decoder
equal the maximum of 0 and the largest row (resp. column) index among
the retained cells — hence both are 0 for an empty grid, and they equal
the largest retained indices whenever those are non-negative; they come
only from retained cells (declared dimension metadata is not even an
input of the decoder); a successful step only ever grows them and the
grid; and a cell whose resolved value is blank after trimming leaves the
state completely unchanged, however large its address. -/
theorem claim_C1_amended :
    (∀ (rows : List (List Cell)) (shared : List String) (st : WsState),
        parse_worksheet_xml rows shared = Except.ok st →
        st.max_row = intSup0 (st.cells.map (fun e => e.1.1)) ∧
        st.max_col = natSup0 (st.cells.map (fun e => e.1.2))) ∧
    (∀ (shared : List String) (st : WsState) (c : Cell) (st' : WsState),
        processCell shared st c = Except.ok st' →
        st.max_row ≤ st'.max_row ∧ st.max_col ≤ st'.max_col ∧
        ∀ e ∈ st.cells, e ∈ st'.cells) ∧
    (∀ (shared : List String) (st : WsState) (c : Cell) (v : String),
        resolveValue shared c.t c.v = Except.ok v → pyStrip v = "" →
        processCell shared st c = Except.ok st) := by
  refine ⟨?_, ?_, ?_⟩
  · intro rows shared st h
    have hinv := foldlM_processCell_inv
      (fun st => st.max_row = intSup0 (st.cells.map (fun e => e.1.1)) ∧
        st.max_col = natSup0 (st.cells.map (fun e => e.1.2)))
      (fun st c st' hstep hP => by
        rcases processCell_ok_elim hstep with rfl | ⟨ref, ri, ci, v, _, _, _, _, rfl⟩
        · exact hP
        · refine ⟨?_, ?_⟩
          · show max st.max_row ri = intSup0 (ri :: st.cells.map (fun e => e.1.1))
            show max st.max_row ri = max ri (intSup0 (st.cells.map (fun e => e.1.1)))
            rw [← hP.1, max_comm]
          · show max st.max_col ci = natSup0 (ci :: st.cells.map (fun e => e.1.2))
            show max st.max_col ci = max ci (natSup0 (st.cells.map (fun e => e.1.2)))
            rw [← hP.2, Nat.max_comm])
      rows.flatten ⟨[], 0, 0⟩ st h
    exact hinv ⟨rfl, rfl⟩
  · intro shared st c st' h
    rcases processCell_ok_elim h with rfl | ⟨ref, ri, ci, v, _, _, _, _, rfl⟩
    · exact ⟨le_refl _, Nat.le_refl _, fun e he => he⟩
    · exact ⟨le_max_left _ _, Nat.le_max_left _ _,
        fun e he => List.mem_cons_of_mem _ he⟩
  · intro shared st c v hres hblank
    cases hr : c.r with
    | none => simp only [processCell, hr]
    | some ref =>
      simp only [processCell, hr]
      by_cases he : ref = ""
      · rw [if_pos he]
      · rw [if_neg he]
        cases hco : excel_cell_to_coords ref with
        | none => simp only [hco]
        | some p =>
          obtain ⟨ri, ci⟩ := p
          simp only [hco, hres, Bind.bind, Except.bind, hblank, ne_eq,
            not_true_eq_false, if_false]

/-- Claim C1 witness: for the one-cell worksheet with address B3 and
value x, the returned bounds 2 and 1 equal the suprema over the retained
grid. -/
theorem claim_C1_witness :
    (⟨[(((2 : Int), (1 : Nat)), "x")], 2, 1⟩ : WsState).max_row
        = intSup0 ([(((2 : Int), (1 : Nat)), "x")].map (fun e => e.1.1)) ∧
    (⟨[(((2 : Int), (1 : Nat)), "x")], 2, 1⟩ : WsState).max_col
        = natSup0 ([(((2 : Int), (1 : Nat)), "x")].map (fun e => e.1.2)) :=
  claim_C1_amended.1 [[⟨some "B3", none, some (some "x")⟩]] []
    ⟨[(((2 : Int), (1 : Nat)), "x")], 2, 1⟩ rfl

/-- Claim C2 counterexample: a shared-string-typed cell with value 99999
against a 3-entry table resolves to the empty string — the guard
`string_index < len(shared_strings)` fails silently and no exception is
raised — so the cell is discarded; it does not resolve to the literal
text 99999. -/
theorem claim_C2_counterexample :
    resolveValue ["a", "b", "c"] (some "s") (some (some "99999")) = Except.ok "" ∧
    parse_worksheet_xml [[⟨some "A1", some "s", some (some "99999")⟩]] ["a", "b", "c"]
      = Except.ok ⟨[], 0, 0⟩ ∧
    ("" : String) ≠ "99999" := ⟨rfl, rfl, by decide⟩

/-- Claim C2 (amended): for a shared-string-typed cell, if parsing the
raw value as an integer fails the raw text itself becomes the value and
the decode does not fail; but a successfully parsed index at or beyond
the table length yields the empty string, so the cell is discarded
rather than kept with the raw text; a parsed negative index below
-length also falls back to the raw text (the in-range negative case is
Python indexing from the end, claim C10). -/
theorem claim_C2_amended :
    (∀ (shared : List String) (s : String), pyInt s = none →
        resolveValue shared (some "s") (some (some s)) = Except.ok s) ∧
    (∀ (shared : List String) (s : String) (i : Int), pyInt s = some i →
        (shared.length : Int) ≤ i →
        resolveValue shared (some "s") (some (some s)) = Except.ok "") ∧
    (∀ (shared : List String) (s : String) (i : Int), pyInt s = some i →
        (shared.length : Int) + i < 0 →
        resolveValue shared (some "s") (some (some s)) = Except.ok s) ∧
    (∀ (shared : List String) (st : WsState) (c : Cell) (s : String) (i : Int),
        c.t = some "s" → c.v = some (some s) → pyInt s = some i →
        (shared.length : Int) ≤ i →
        processCell shared st c = Except.ok st) := by
  have h2 : ∀ (shared : List String) (s : String) (i : Int), pyInt s = some i →
      (shared.length : Int) ≤ i →
      resolveValue shared (some "s") (some (some s)) = Except.ok "" := by
    intro shared s i hparse hge
    have : ¬ i < (shared.length : Int) := by omega
    simp [resolveValue, hparse, this]
  refine ⟨?_, h2, ?_, ?_⟩
  · intro shared s hparse
    simp [resolveValue, hparse]
  · intro shared s i hparse hlow
    have hneg : ¬ 0 ≤ i := by
      have hlen : 0 ≤ (shared.length : Int) := Int.natCast_nonneg _
      omega
    have hlt : i < (shared.length : Int) := by
      have hlen : 0 ≤ (shared.length : Int) := Int.natCast_nonneg _
      omega
    have hout : ¬ 0 ≤ (shared.length : Int) + i := by omega
    simp [resolveValue, hparse, hlt, hneg, hout]
  · intro shared st c s i ht hv hparse hge
    have hres : resolveValue shared c.t c.v = Except.ok "" := by
      rw [ht, hv]; exact h2 shared s i hparse hge
    cases hr : c.r with
    | none => simp only [processCell, hr]
    | some ref =>
      simp only [processCell, hr]
      by_cases he : ref = ""
      · rw [if_pos he]
      · rw [if_neg he]
        cases hco : excel_cell_to_coords ref with
        | none => simp only [hco]
        | some p =>
          obtain ⟨ri, ci⟩ := p
          simp only [hco, hres, Bind.bind, Except.bind, ne_eq]
          simp [pyStrip]

/-- Claim C2 witness: a shared-string-typed cell whose value abc does
not parse as an integer resolves to abc itself against the empty
table. -/
theorem claim_C2_witness :
    resolveValue [] (some "s") (some (some "abc")) = Except.ok "abc" :=
  claim_C2_amended.1 [] "abc" rfl

/-- Claim C3 counterexample: a cell with resolved value consisting of a
letter surrounded by spaces is stored with the spaces intact — the grid
entry is the untrimmed value, which differs from its own trim. -/
theorem claim_C3_counterexample :
    parse_worksheet_xml [[⟨some "A1", none, some (some " a ")⟩]] []
      = Except.ok ⟨[(((0 : Int), (0 : Nat)), " a ")], 0, 0⟩ ∧
    pyStrip " a " ≠ " a " := ⟨rfl, by decide⟩

/-- Claim C3 (amended): trimming is used only for the discard test — if
the resolved value is empty after trimming the cell is discarded (not
inserted, bounds unchanged), and otherwise the grid entry inserted at
the cell address is the raw, untrimmed resolved value; consequently
every value stored in the grid is non-blank after trimming, but need not
equal its own trim. -/
theorem claim_C3_amended :
    (∀ (shared : List String) (st : WsState) (c : Cell) (ref : String)
        (ri : Int) (ci : Nat) (v : String),
        c.r = some ref → ref ≠ "" → excel_cell_to_coords ref = some (ri, ci) →
        resolveValue shared c.t c.v = Except.ok v →
        processCell shared st c =
          Except.ok (if pyStrip v = "" then st
            else ⟨((ri, ci), v) :: st.cells, max st.max_row ri, max st.max_col ci⟩)) ∧
    (∀ (rows : List (List Cell)) (shared : List String) (st : WsState),
        parse_worksheet_xml rows shared = Except.ok st →
        ∀ e ∈ st.cells, pyStrip e.2 ≠ "") := by
  constructor
  · intro shared st c ref ri ci v hr he hco hres
    simp only [processCell, hr]
    rw [if_neg he]
    simp only [hco, hres, Bind.bind, Except.bind, ne_eq]
    by_cases hb : pyStrip v = ""
    · simp [hb]
    · simp [hb]
  · intro rows shared st h
    have hinv := foldlM_processCell_inv
      (fun st => ∀ e ∈ st.cells, pyStrip e.2 ≠ "")
      (fun st c st' hstep hP => by
        rcases processCell_ok_elim hstep with rfl | ⟨ref, ri, ci, v, _, _, _, hnb, rfl⟩
        · exact hP
        · intro e he
          rcases List.mem_cons.mp he with rfl | hmem
          · exact hnb
          · exact hP e hmem)
      rows.flatten ⟨[], 0, 0⟩ st h
    exact hinv (by intro e he; exact absurd he (List.not_mem_nil e))

/-- Claim C3 witness: processing the cell A1 with resolved value a
surrounded by spaces inserts exactly that untrimmed value. -/
theorem claim_C3_witness :
    processCell [] ⟨[], 0, 0⟩ ⟨some "A1", none, some (some " a ")⟩ =
      Except.ok (if pyStrip " a " = "" then (⟨[], 0, 0⟩ : WsState)
        else ⟨[(((0 : Int), (0 : Nat)), " a ")], max 0 0, max 0 0⟩) :=
  claim_C3_amended.1 [] ⟨[], 0, 0⟩ ⟨some "A1", none, some (some " a ")⟩
    "A1" 0 0 " a " rfl (by decide) rfl rfl

/-- Claim C4 counterexample: with two worksheet parts where the first
raises, the error escapes the worksheet loop (it is the loop outcome,
not recorded against the worksheet only) and the second worksheet is
never processed — its output does not appear. -/
theorem claim_C4_counterexample :
    runWorksheets [Except.error "boom", Except.ok [["row1"]]]
      = (([] : List (List (List String))), some "boom") ∧
    ([["row1"]] : List (List String)) ∉
      (runWorksheets [Except.error "boom", Except.ok [["row1"]]]).1 :=
  ⟨rfl, by decide⟩

/-- Claim C4 (amended): an exception raised while processing one
worksheet aborts the remaining worksheets of the same file — the loop
returns the outputs of the worksheets before the failing one and the
error escapes to the per-file handler of main — and the per-file handler
contains it there: every queued file is attempted and counted either
successful or failed. -/
theorem claim_C4_amended :
    (∀ (α : Type) (xs ys : List (Except String α)) (e : String),
        (∀ x ∈ xs, ∃ a, x = Except.ok a) →
        runWorksheets (xs ++ Except.error e :: ys)
          = (xs.filterMap Except.toOption, some e)) ∧
    (∀ files : List (Except String Unit),
        (mainLoop files).1 + (mainLoop files).2 = files.length) := by
  constructor
  · intro α xs ys e h
    exact runWorksheets_all_ok xs h ys e
  · intro files
    have h := mainLoop_counts_aux files 0 0
    simpa [mainLoop] using h

/-- Claim C4 witness: with three worksheets where the second raises, the
first is processed, the error escapes, and the third is dropped. -/
theorem claim_C4_witness :
    runWorksheets [Except.ok [["r"]], Except.error "boom", Except.ok [["q"]]]
      = ([[["r"]]], some "boom") := by
  have h := claim_C4_amended.1 (List (List String))
    [Except.ok [["r"]]] [Except.ok [["q"]]] "boom"
    (by intro x hx; rw [List.mem_singleton] at hx; exact ⟨[["r"]], hx⟩)
  simpa using h

/-- Claim C5 counterexample: the reference A01 fully matches the
letters-then-digits pattern, decodes to row 0 and column 0, but encoding
those coordinates produces the canonical A1, not A01, so the round trip
fails on references with leading zeros in the digit part. -/
theorem claim_C5_counterexample :
    excel_cell_to_coords "A01" = some (0, 0) ∧
    encodeAddr 0 0 = "A1" ∧
    ("A1" : String) ≠ "A01" := by
  refine ⟨by decide, ?_, by decide⟩
  simp [encodeAddr, column_index_to_letter, colLetters, intStr, natDigits]

/-- Claim C5 (amended): for every address string made of a non-empty
uppercase letter run followed by the canonical decimal digits of its row
number (no leading zeros — exactly the references in the image of the
encoder), encoding the decoded coordinates reproduces the reference:
encode(decode(ref)) = ref. -/
theorem claim_C5_amended (L : List Char) (n : Nat) (hne : L ≠ [])
    (hup : ∀ c ∈ L, isUp c = true) :
    (excel_cell_to_coords (String.mk (L ++ natDigits n))).map
        (fun p => encodeAddr p.1 p.2)
      = some (String.mk (L ++ natDigits n)) := by
  rw [excel_cell_to_coords_canonical L n hne hup]
  show some (encodeAddr ((n : Int) - 1) (letters_to_number L - 1))
    = some (String.mk (L ++ natDigits n))
  rw [encodeAddr_canonical L n hne hup]

/-- Claim C5 witness: the round trip at the reference AB12. -/
theorem claim_C5_witness :
    (excel_cell_to_coords "AB12").map (fun p => encodeAddr p.1 p.2) = some "AB12" := by
  have h := claim_C5_amended ['A', 'B'] 12 (by decide) (by decide)
  have hd : natDigits 12 = ['1', '2'] := by simp [natDigits]
  rw [hd] at h
  exact h

end XlsxToCsv
